import Mathlib

/-!
# Santander Cycles checker: reconciliation pass of `server.js`

A shallow embedding of the station normaliser (`getProperty`, `cleanPlace`,
`cleanPlaces`), the sorter and change encoder (`sortPlaces`, `getChanges`,
`formatChanges`), the reconciliation pass `checkChanges` and the
`GET /change/:id` handler, followed by the properties proved about them.

JavaScript Numbers are modelled on the fragment the program is meant to run on:
integer values (exact, as for safe integers) and `NaN`, which `Number(...)`
yields for text that is not numeric.  Fractions, infinities and negative zero
are outside the model.
-/

namespace SantanderCycles

/-! ## JavaScript numbers and strings -/

/-- A JavaScript Number: an integer value or `NaN`. -/
inductive JSNumber where
  | int (i : Int)
  | nan
  deriving DecidableEq, Repr

namespace JSNumber

/-- Strict equality `a === b`: `NaN` is different from every Number, itself included. -/
def strictEq : JSNumber → JSNumber → Bool
  | int a, int b => decide (a = b)
  | _, _ => false

/-- Subtraction `a - b`: `NaN` as soon as one operand is `NaN`. -/
def sub : JSNumber → JSNumber → JSNumber
  | int a, int b => int (a - b)
  | _, _ => nan

/-- The test `v > 0` that `Array.prototype.sort` applies to a comparator result
(a `NaN` result counts as `+0`). -/
def isPositive : JSNumber → Bool
  | int d => decide (0 < d)
  | nan => false

/-- Number-to-string conversion, as used by template literals and by `join`:
decimal digits with a leading `-` for negative values (the form JavaScript gives
every safe integer), and `NaN`. -/
def toJSString : JSNumber → String
  | int (Int.ofNat n) => String.mk (Nat.toDigits 10 n)
  | int (Int.negSucc n) => "-" ++ String.mk (Nat.toDigits 10 (n + 1))
  | nan => "NaN"

end JSNumber

/-- White space that `Number(...)` strips from both ends of a string
(`StrWhiteSpaceChar`: tab, line feed, vertical tab, form feed, carriage return,
space, no-break space, the `Zs` spaces, line and paragraph separators, BOM). -/
def isStrWhiteSpace (c : Char) : Bool :=
  let n := c.toNat
  (9 ≤ n && n ≤ 13) || n = 32 || n = 160 || n = 5760 || (8192 ≤ n && n ≤ 8202) ||
    n = 8232 || n = 8233 || n = 8239 || n = 8287 || n = 12288 || n = 65279

/-- Strip white space from both ends. -/
def trimWhiteSpace (s : List Char) : List Char :=
  ((s.dropWhile isStrWhiteSpace).reverse.dropWhile isStrWhiteSpace).reverse

/-- Value of a run of decimal digits, most significant first. -/
def digitsValue (ds : List Char) : Nat :=
  ds.foldl (fun acc c => acc * 10 + (c.toNat - 48)) 0

/-- A non-empty run of decimal digits, read as a natural number. -/
def parseDigits (ds : List Char) : Option Nat :=
  if ds ≠ [] ∧ ds.all Char.isDigit = true then some (digitsValue ds) else none

/-- Unsigned part of `toNumber`. -/
def unsignedToNumber (negative : Bool) (ds : List Char) : JSNumber :=
  match parseDigits ds with
  | some n => if negative then JSNumber.int (-(n : Int)) else JSNumber.int n
  | none => JSNumber.nan

/-- The conversion `Number(s)` of a string, on the integer fragment: surrounding
white space is ignored, the empty string is `0`, an optionally signed run of
decimal digits is its value, and text that is not numeric is `NaN`.  (Literals
with a fraction, an exponent, a radix marker or `Infinity` are outside the
fragment and are not told apart from `NaN` here.) -/
def toNumber (s : String) : JSNumber :=
  match trimWhiteSpace s.toList with
  | [] => JSNumber.int 0
  | '+' :: ds => unsignedToNumber false ds
  | '-' :: ds => unsignedToNumber true ds
  | ds => unsignedToNumber false ds

/-- Pieces of a character list between occurrences of `sep`. -/
def splitChars (sep : Char) : List Char → List (List Char)
  | [] => [[]]
  | c :: cs =>
    if c = sep then [] :: splitChars sep cs
    else
      match splitChars sep cs with
      | [] => [[c]]
      | piece :: rest => (c :: piece) :: rest

/-- The call `s.split(sep)` for a one-character separator: the empty string gives
one empty piece. -/
def split (s : String) (sep : Char) : List String :=
  (splitChars sep s.toList).map String.mk

/-- The call `xs.join(sep)` on an array of Numbers. -/
def join (xs : List JSNumber) (sep : String) : String :=
  String.intercalate sep (xs.map JSNumber.toJSString)

/-- The call `s.replace(pat, rep)` with a string pattern: only the first
occurrence of `pat` is replaced, wherever it stands; without an occurrence the
string is returned unchanged. -/
def replaceFirstChars (pat rep : List Char) : List Char → List Char
  | [] => if pat = [] then rep else []
  | c :: cs =>
    if pat.isPrefixOf (c :: cs) then rep ++ (c :: cs).drop pat.length
    else c :: replaceFirstChars pat rep cs

/-- String form of `replaceFirstChars`. -/
def replace (s pat rep : String) : String :=
  String.mk (replaceFirstChars pat.toList rep.toList s.toList)

/-! ## Stations and the change encoder -/

/-- A normalised station, the object built by `cleanPlace`. -/
structure Station where
  id : JSNumber
  name : String
  lat : Rat
  lon : Rat
  capacity : JSNumber
  bikes : JSNumber
  terminalName : String
  installDate : JSNumber
  deriving DecidableEq

/-- The projection `{id, bikes}` built by `getChanges`. -/
structure Change where
  id : JSNumber
  bikes : JSNumber
  deriving DecidableEq

/-- The source's `getChanges`: keep `id` and `bikes` of every place. -/
def getChanges (places : List Station) : List Change :=
  places.map (fun p => { id := p.id, bikes := p.bikes })

/-- The source's `formatChanges`: a left fold appending `id:bikes;` to the
accumulator, starting from the empty string. -/
def formatChanges (places : List Change) : String :=
  places.foldl
    (fun acc place => acc ++ place.id.toJSString ++ ":" ++ place.bikes.toJSString ++ ";") ""

/-! ## The station normaliser -/

/-- One entry of a raw record's `additionalProperties`. -/
structure AdditionalProperty where
  key : String
  value : String
  deriving DecidableEq

/-- A raw feed record, with the attributes `cleanPlace` reads. -/
structure RawPlace where
  id : String
  commonName : String
  lat : Rat
  lon : Rat
  additionalProperties : List AdditionalProperty
  deriving DecidableEq

/-- The source's `getProperty`: the first additional property whose key is
exactly `key`, or `none` for `undefined`. -/
def getProperty (place : RawPlace) (key : String) : Option AdditionalProperty :=
  place.additionalProperties.find? (fun prop => decide (prop.key = key))

/-- The source's `cleanPlace`.  The object literal is evaluated field by field;
reading `.value` of an `undefined` property throws a `TypeError`, modelled by
`none`.  The conversions `Number(...)` never throw. -/
def cleanPlace (place : RawPlace) : Option Station := do
  let id := toNumber (replace place.id "BikePoints_" "")
  let docks ← getProperty place "NbDocks"
  let bikes ← getProperty place "NbBikes"
  let terminal ← getProperty place "TerminalName"
  let install ← getProperty place "InstallDate"
  pure
    { id := id
      name := place.commonName
      lat := place.lat
      lon := place.lon
      capacity := toNumber docks.value
      bikes := toNumber bikes.value
      terminalName := terminal.value
      installDate := toNumber install.value }

/-- The source's `cleanPlaces`, `places.map(cleanPlace)`: the first record that
throws makes the whole call throw. -/
def cleanPlaces : List RawPlace → Option (List Station)
  | [] => some []
  | place :: rest =>
    match cleanPlace place with
    | none => none
    | some station =>
      match cleanPlaces rest with
      | none => none
      | some stations => some (station :: stations)

/-! ## Sorting -/

/-- The comparator `(a, b) => a.id - b.id` of `sortPlaces`. -/
def compareIds (a b : Station) : JSNumber :=
  a.id.sub b.id

/-- Insert `a` in front of the first element it does not have to follow. -/
def insertPlace (a : Station) : List Station → List Station
  | [] => [a]
  | b :: rest =>
    if (compareIds a b).isPositive then b :: insertPlace a rest else a :: b :: rest

/-- The source's `sortPlaces`, `places.sort((a, b) => a.id - b.id)`.
`Array.prototype.sort` is a stable sort; it is modelled by the stable insertion
sort, which any stable sort agrees with when the comparator is consistent (here:
when every id is an integer). -/
def sortPlaces : List Station → List Station
  | [] => []
  | a :: rest => insertPlace a (sortPlaces rest)

/-! ## The store -/

/-- The value written under `stations/<id>`: the station and its `found` stamp. -/
structure StationRecord where
  place : Station
  found : Nat
  deriving DecidableEq

/-- The value written under `changes/<timestamp>`: the object with one `data` attribute. -/
structure ChangeRecord where
  data : String
  deriving DecidableEq

/-- The three areas of the database the program uses.  `knownStations` is `none`
when the node holds no value (`snapshot.val()` is `null`); the two other areas
map the last path segment to the stored value, latest write first. -/
structure Database where
  knownStations : Option String
  stations : List (String × StationRecord)
  changes : List (String × ChangeRecord)
  deriving DecidableEq

/-- What the outside world answers during one pass. -/
structure World where
  /-- Result of `getUrl` followed by `getPlaces`; `none` when either rejects. -/
  feed : Option (List RawPlace)
  /-- Whether the `n`-th station write attempted in the pass (from `0`) succeeds. -/
  stationWriteOk : Nat → Bool
  /-- Whether the write of `knownStations` succeeds. -/
  knownWriteOk : Bool
  /-- Whether the write of the change record succeeds. -/
  changesWriteOk : Bool

/-! ## The reconciliation pass -/

/-- The call `xs.indexOf(x)`: index of the first strictly equal element, `-1`
when there is none. -/
def indexOf : List JSNumber → JSNumber → Int
  | [], _ => -1
  | y :: ys, x =>
    if y.strictEq x then 0
    else
      let i := indexOf ys x
      if i = -1 then -1 else i + 1

/-- Lines 81-88 of `checkChanges`: every saved id for which
`places.find(p => p.id === id)` finds nothing is pushed onto `missingPlaces`. -/
def findMissing (places : List Station) (savedPlaces : List JSNumber) : List JSNumber :=
  savedPlaces.foldl
    (fun missingPlaces id =>
      if (places.find? (fun p => p.id.strictEq id)).isNone then missingPlaces ++ [id]
      else missingPlaces)
    []

/-- State of the loop over `places` (lines 94-112).  The `stations` area maps
the text after `stations/` in the path to the record. -/
structure LoopState where
  /-- The stations for which a write was attempted, in order. -/
  attempted : List Station
  /-- The array `newPlaces`. -/
  newPlaces : List JSNumber
  /-- The `stations` area of the database. -/
  stations : List (String × StationRecord)

/-- One iteration of the loop: a place whose id is found in `savedPlaces` is
skipped; otherwise the record is written, and the id is pushed onto `newPlaces`
only when the write succeeded (a failure is caught and logged). -/
def registerStep (savedPlaces : List JSNumber) (timestamp : Nat) (ok : Nat → Bool)
    (st : LoopState) (place : Station) : LoopState :=
  if indexOf savedPlaces place.id ≠ -1 then st
  else if ok st.attempted.length then
    { attempted := st.attempted ++ [place]
      newPlaces := st.newPlaces ++ [place.id]
      stations :=
        (place.id.toJSString, { place := place, found := timestamp }) :: st.stations }
  else
    { st with attempted := st.attempted ++ [place] }

/-- The whole loop of lines 94-112. -/
def registerNew (places : List Station) (savedPlaces : List JSNumber) (timestamp : Nat)
    (ok : Nat → Bool) (stations : List (String × StationRecord)) : LoopState :=
  places.foldl (registerStep savedPlaces timestamp ok)
    { attempted := [], newPlaces := [], stations := stations }

/-- What one pass did. -/
structure PassReport where
  /-- The `success` attribute of the JSON answer. -/
  success : Bool
  /-- The array `missingPlaces`. -/
  missingPlaces : List JSNumber
  /-- The stations for which a station write was attempted, in order. -/
  attempted : List Station
  /-- The array `newPlaces`: ids whose station write succeeded. -/
  newPlaces : List JSNumber
  /-- The values passed to the write of `knownStations`, in order. -/
  knownWrites : List String
  /-- The string `changes`. -/
  changes : String
  /-- The values passed to the write of `changes/<timestamp>`, with their key. -/
  changeWrites : List (String × ChangeRecord)
  /-- The database after the pass. -/
  db : Database

/-- Lines 81-141 of `checkChanges`, once `places` and `savedPlaces` are there. -/
def reconcile (places : List Station) (savedPlaces : List JSNumber) (w : World)
    (db : Database) (timestamp : Nat) : PassReport :=
  let missingPlaces := findMissing places savedPlaces
  let loop := registerNew places savedPlaces timestamp w.stationWriteOk db.stations
  let newPlaces := loop.newPlaces
  let knownWrites :=
    if newPlaces.length > 0 then [join (savedPlaces ++ newPlaces) ";"] else []
  let knownStations :=
    if newPlaces.length > 0 ∧ w.knownWriteOk = true then
      some (join (savedPlaces ++ newPlaces) ";")
    else db.knownStations
  let changes := formatChanges (getChanges places)
  let key := String.mk (Nat.toDigits 10 timestamp)
  let record : ChangeRecord := { data := key ++ "-" ++ changes }
  { success := true
    missingPlaces := missingPlaces
    attempted := loop.attempted
    newPlaces := newPlaces
    knownWrites := knownWrites
    changes := changes
    changeWrites := [(key, record)]
    db :=
      { knownStations := knownStations
        stations := loop.stations
        changes := if w.changesWriteOk then (key, record) :: db.changes else db.changes } }

/-- The answer of a pass that failed before touching the store. -/
def aborted (db : Database) : PassReport :=
  { success := false
    missingPlaces := []
    attempted := []
    newPlaces := []
    knownWrites := []
    changes := ""
    changeWrites := []
    db := db }

/-- Lines 61-67: the feed is fetched, normalised and sorted; `none` when a step rejects. -/
def loadPlaces (feed : Option (List RawPlace)) : Option (List Station) :=
  (feed.bind cleanPlaces).map sortPlaces

/-- Lines 70-79: the value of `knownStations` is split on `;` and every piece is
converted with `Number`; a `null` value makes `ids.split` throw. -/
def loadSavedPlaces (db : Database) : Option (List JSNumber) :=
  db.knownStations.map (fun ids => (split ids ';').map toNumber)

/-- The source's `checkChanges`. -/
def checkChanges (w : World) (db : Database) (timestamp : Nat) : PassReport :=
  match loadPlaces w.feed with
  | none => aborted db
  | some places =>
    match loadSavedPlaces db with
    | none => aborted db
    | some savedPlaces => reconcile places savedPlaces w db timestamp

/-! ## The change lookup endpoint -/

/-- The parts of a request the handlers read: `req.query.fetch` and `req.params.id`. -/
structure Request where
  fetch : Option String
  id : String

/-- An answer: status code and body. -/
structure HttpResponse where
  status : Nat
  body : String
  deriving DecidableEq

/-- The source's `isAccessApproved`. -/
def isAccessApproved (req : Request) : Bool :=
  decide (req.fetch = some "1")

/-- The handler of `GET /change/:id`. -/
def getChange (db : Database) (req : Request) : HttpResponse :=
  if !isAccessApproved req then { status := 400, body := "Not found." }
  else
    match db.changes.lookup req.id with
    | some changes => { status := 200, body := changes.data }
    | none => { status := 400, body := "Not found." }


/-! ## Specification-side definitions -/

/-- The tuple `<id>:<bikes>;` of one element. -/
def tupleOf (place : Change) : String :=
  place.id.toJSString ++ ":" ++ place.bikes.toJSString ++ ";"

/-- Concatenation, in input order, of the tuples of all elements (the spec's
wording of the encoder). -/
def concatTuples : List Change → String
  | [] => ""
  | place :: rest => tupleOf place ++ concatTuples rest

/-- Whether no id of `savedPlaces` is the id of `place`. -/
def isNewFor (savedPlaces : List JSNumber) (place : Station) : Bool :=
  decide (place.id ∉ savedPlaces)

/-- The ids of those stations of `newStations` whose write succeeded, where the
`n`-th station of the list (from `0`) is the `n`-th write attempted. -/
def succeededIds (ok : Nat → Bool) (newStations : List Station) : List JSNumber :=
  (newStations.enum.filter (fun x => ok x.1)).map (fun x => x.2.id)

/-- One tuple read back: split on `:` and read both parts as integers. -/
def decodeTuple (piece : String) : Option (Int × Int) :=
  match split piece ':' with
  | [a, b] =>
    match toNumber a, toNumber b with
    | JSNumber.int i, JSNumber.int j => some (i, j)
    | _, _ => none
  | _ => none

/-- Read every piece back; `none` as soon as one piece is not a tuple. -/
def decodeTuples : List String → Option (List (Int × Int))
  | [] => some []
  | piece :: rest =>
    match decodeTuple piece with
    | none => none
    | some pair =>
      match decodeTuples rest with
      | none => none
      | some pairs => some (pair :: pairs)

/-- Discard the empty piece that follows the final `;`. -/
def dropFinalEmpty (pieces : List String) : List String :=
  if pieces.getLast? = some "" then pieces.dropLast else pieces

/-- The reading of a change string the spec describes: split on `;`, discard the
empty piece after the final `;`, split each piece on `:` and read the two parts
as integers. -/
def decodeChanges (s : String) : Option (List (Int × Int)) :=
  decodeTuples (dropFinalEmpty (split s ';'))

/-- The `{id, bikes}` record of a pair of integers. -/
def changeOfPair (pair : Int × Int) : Change :=
  { id := JSNumber.int pair.1, bikes := JSNumber.int pair.2 }

/-! ## Example data -/

/-- A world where the feed is `feed` and every write succeeds. -/
def allWritesOk (feed : Option (List RawPlace)) : World :=
  { feed := feed, stationWriteOk := fun _ => true, knownWriteOk := true, changesWriteOk := true }

/-- A database holding `known` as registry and nothing else. -/
def databaseWith (known : Option String) : Database :=
  { knownStations := known, stations := [], changes := [] }

/-- A station with the given id and bike count. -/
def stationWith (id bikes : Int) : Station :=
  { id := JSNumber.int id
    name := "River Street"
    lat := 51
    lon := 0
    capacity := JSNumber.int 18
    bikes := JSNumber.int bikes
    terminalName := "001023"
    installDate := JSNumber.int 1278947280000 }

/-- A raw record with the four additional properties, the given raw id and the
given `NbBikes` text. -/
def rawPlaceWith (id bikes : String) : RawPlace :=
  { id := id
    commonName := "River Street"
    lat := 51
    lon := 0
    additionalProperties :=
      [{ key := "NbBikes", value := bikes }, { key := "NbDocks", value := "18" },
        { key := "TerminalName", value := "001023" },
        { key := "InstallDate", value := "1278947280000" }] }

/-- A raw record like `rawPlaceWith` but without the `NbBikes` property. -/
def rawPlaceWithoutBikes (id : String) : RawPlace :=
  { id := id
    commonName := "River Street"
    lat := 51
    lon := 0
    additionalProperties :=
      [{ key := "NbDocks", value := "18" }, { key := "TerminalName", value := "001023" },
        { key := "InstallDate", value := "1278947280000" }] }

/-! ## Lemmas -/

theorem strictEq_int_right (x : JSNumber) (k : Int) :
    x.strictEq (JSNumber.int k) = true ↔ x = JSNumber.int k := by
  cases x with
  | int a => simp [JSNumber.strictEq]
  | nan => simp [JSNumber.strictEq]

theorem strictEq_int_left (k : Int) (x : JSNumber) :
    (JSNumber.int k).strictEq x = true ↔ x = JSNumber.int k := by
  cases x with
  | int a => simp [JSNumber.strictEq, eq_comm]
  | nan => simp [JSNumber.strictEq]

theorem indexOf_ge (xs : List JSNumber) (x : JSNumber) : -1 ≤ indexOf xs x := by
  induction xs with
  | nil => simp [indexOf]
  | cons y ys ih =>
    simp only [indexOf]
    split
    · omega
    · split <;> omega

theorem indexOf_eq_neg_one_iff (xs : List JSNumber) (x : JSNumber) :
    indexOf xs x = -1 ↔ ∀ y ∈ xs, y.strictEq x = false := by
  induction xs with
  | nil => simp [indexOf]
  | cons y ys ih =>
    have hge := indexOf_ge ys x
    simp only [indexOf, List.mem_cons, forall_eq_or_imp]
    by_cases hy : y.strictEq x = true
    · simp [hy]
    · have hy2 : y.strictEq x = false := by simpa using hy
      simp only [hy2, Bool.false_eq_true, if_false, true_and]
      rw [← ih]
      constructor
      · intro h
        by_contra hne
        simp [hne] at h
        omega
      · intro h
        simp [h]

/-- On a list of integer ids, `indexOf` finds an id exactly when it is a member. -/
theorem indexOf_ints (K : List Int) (x : JSNumber) :
    indexOf (K.map JSNumber.int) x ≠ -1 ↔ x ∈ K.map JSNumber.int := by
  rw [Ne, indexOf_eq_neg_one_iff]
  constructor
  · intro h
    by_contra hx
    apply h
    intro y hy
    obtain ⟨k, _, rfl⟩ := List.mem_map.1 hy
    by_contra hk
    have hk2 : (JSNumber.int k).strictEq x = true := by simpa using hk
    rw [strictEq_int_left] at hk2
    exact hx (hk2 ▸ hy)
  · intro hx h
    obtain ⟨k, _, rfl⟩ := List.mem_map.1 hx
    have := h _ hx
    simp [JSNumber.strictEq] at this

theorem find_isNone_int (places : List Station) (k : Int) :
    (places.find? (fun p => p.id.strictEq (JSNumber.int k))).isNone = true
      ↔ ∀ p ∈ places, p.id ≠ JSNumber.int k := by
  rw [Option.isNone_iff_eq_none, List.find?_eq_none]
  constructor
  · intro h p hp hk
    exact h p hp ((strictEq_int_right _ _).2 hk)
  · intro h p hp hk
    exact h p hp ((strictEq_int_right _ _).1 hk)

theorem findMissing_fold (places : List Station) (K : List Int) (acc : List JSNumber) :
    (K.map JSNumber.int).foldl
        (fun missingPlaces id =>
          if (places.find? (fun p => p.id.strictEq id)).isNone then missingPlaces ++ [id]
          else missingPlaces)
        acc
      = acc ++ (K.filter (fun k => decide (∀ p ∈ places, p.id ≠ JSNumber.int k))).map
          JSNumber.int := by
  induction K generalizing acc with
  | nil => simp
  | cons k K ih =>
    simp only [List.map_cons, List.foldl_cons]
    rw [ih]
    by_cases h : ∀ p ∈ places, p.id ≠ JSNumber.int k
    · have h2 := (find_isNone_int places k).2 h
      simp only [h2, if_true]
      rw [List.filter_cons, if_pos (decide_eq_true h)]
      simp
    · have h2 : ¬ (places.find? (fun p => p.id.strictEq (JSNumber.int k))).isNone = true :=
        fun hc => h ((find_isNone_int places k).1 hc)
      simp only [h2, if_false]
      rw [List.filter_cons]
      simp only [h, decide_False, Bool.false_eq_true, if_false]

theorem isNewFor_ints (K : List Int) (place : Station) :
    isNewFor (K.map JSNumber.int) place = true ↔ indexOf (K.map JSNumber.int) place.id = -1 := by
  have h := indexOf_ints K place.id
  simp only [isNewFor, decide_eq_true_eq]
  constructor
  · intro hn
    by_contra hc
    exact hn (h.1 hc)
  · intro hi hm
    exact (h.2 hm) hi

/-- The loop from any state: what it adds to `attempted` and to `newPlaces`. -/
theorem registerNew_fold (K : List Int) (timestamp : Nat) (ok : Nat → Bool)
    (places : List Station) (st : LoopState) :
    (places.foldl (registerStep (K.map JSNumber.int) timestamp ok) st).attempted
        = st.attempted ++ places.filter (isNewFor (K.map JSNumber.int))
      ∧ (places.foldl (registerStep (K.map JSNumber.int) timestamp ok) st).newPlaces
        = st.newPlaces ++
          (((places.filter (isNewFor (K.map JSNumber.int))).enumFrom st.attempted.length).filter
            (fun x => ok x.1)).map (fun x => x.2.id) := by
  induction places generalizing st with
  | nil => simp
  | cons p rest ih =>
    simp only [List.foldl_cons]
    by_cases hnew : isNewFor (K.map JSNumber.int) p = true
    · have hidx := (isNewFor_ints K p).1 hnew
      rw [List.filter_cons, if_pos hnew]
      by_cases hok : ok st.attempted.length = true
      · have hstep : registerStep (K.map JSNumber.int) timestamp ok st p =
            { attempted := st.attempted ++ [p]
              newPlaces := st.newPlaces ++ [p.id]
              stations :=
                (p.id.toJSString, { place := p, found := timestamp }) :: st.stations } := by
          simp [registerStep, hidx, hok]
        rw [hstep]
        obtain ⟨h1, h2⟩ := ih
          { attempted := st.attempted ++ [p]
            newPlaces := st.newPlaces ++ [p.id]
            stations := (p.id.toJSString, { place := p, found := timestamp }) :: st.stations }
        refine ⟨by simpa using h1, ?_⟩
        rw [h2]
        simp [List.enumFrom_cons, List.filter_cons, hok]
      · have hstep : registerStep (K.map JSNumber.int) timestamp ok st p =
            { st with attempted := st.attempted ++ [p] } := by
          simp [registerStep, hidx, hok]
        rw [hstep]
        obtain ⟨h1, h2⟩ := ih { st with attempted := st.attempted ++ [p] }
        refine ⟨by simpa using h1, ?_⟩
        rw [h2]
        simp [List.enumFrom_cons, List.filter_cons, hok]
    · have hidx : indexOf (K.map JSNumber.int) p.id ≠ -1 :=
        fun hc => hnew ((isNewFor_ints K p).2 hc)
      have hstep : registerStep (K.map JSNumber.int) timestamp ok st p = st := by
        simp [registerStep, hidx]
      rw [hstep, List.filter_cons, if_neg hnew]
      exact ih st

theorem registerNew_attempted (K : List Int) (timestamp : Nat) (ok : Nat → Bool)
    (places : List Station) (stations : List (String × StationRecord)) :
    (registerNew places (K.map JSNumber.int) timestamp ok stations).attempted
      = places.filter (isNewFor (K.map JSNumber.int)) := by
  simpa [registerNew] using
    (registerNew_fold K timestamp ok places
      { attempted := [], newPlaces := [], stations := stations }).1

theorem registerNew_newPlaces (K : List Int) (timestamp : Nat) (ok : Nat → Bool)
    (places : List Station) (stations : List (String × StationRecord)) :
    (registerNew places (K.map JSNumber.int) timestamp ok stations).newPlaces
      = succeededIds ok (places.filter (isNewFor (K.map JSNumber.int))) := by
  simpa [registerNew, succeededIds, List.enum] using
    (registerNew_fold K timestamp ok places
      { attempted := [], newPlaces := [], stations := stations }).2

theorem succeededIds_sublist (ok : Nat → Bool) (l : List Station) :
    (succeededIds ok l).Sublist (l.map Station.id) := by
  have h1 : (l.enum.filter (fun x => ok x.1)).Sublist l.enum := List.filter_sublist _
  have h2 := h1.map (fun x => x.2.id)
  have h3 : l.enum.map (fun x => x.2.id) = l.map Station.id := by
    conv_rhs => rw [← List.enum_map_snd l]
    rw [List.map_map]
    rfl
  rw [h3] at h2
  exact h2

theorem formatChanges_fold (places : List Change) (acc : String) :
    places.foldl
        (fun acc place => acc ++ place.id.toJSString ++ ":" ++ place.bikes.toJSString ++ ";") acc
      = acc ++ concatTuples places := by
  induction places generalizing acc with
  | nil => simp [concatTuples]
  | cons p rest ih =>
    simp only [List.foldl_cons, concatTuples, tupleOf]
    rw [ih]
    simp [String.append_assoc]

theorem formatChanges_eq (places : List Change) : formatChanges places = concatTuples places := by
  simp [formatChanges, formatChanges_fold]

theorem reconcile_knownWrites (places : List Station) (savedPlaces : List JSNumber)
    (w : World) (db : Database) (timestamp : Nat) :
    (reconcile places savedPlaces w db timestamp).knownWrites
      = (if (reconcile places savedPlaces w db timestamp).newPlaces = [] then []
        else [join (savedPlaces ++ (reconcile places savedPlaces w db timestamp).newPlaces) ";"]) := by
  simp only [reconcile]
  cases (registerNew places savedPlaces timestamp w.stationWriteOk db.stations).newPlaces <;> simp

theorem reconcile_knownStations (places : List Station) (savedPlaces : List JSNumber)
    (w : World) (db : Database) (timestamp : Nat) :
    (reconcile places savedPlaces w db timestamp).db.knownStations
      = (if (reconcile places savedPlaces w db timestamp).newPlaces ≠ [] ∧ w.knownWriteOk = true
        then some (join (savedPlaces ++ (reconcile places savedPlaces w db timestamp).newPlaces) ";")
        else db.knownStations) := by
  simp only [reconcile]
  cases (registerNew places savedPlaces timestamp w.stationWriteOk db.stations).newPlaces <;> simp

theorem lookup_head (key : String) (record : ChangeRecord) (rest : List (String × ChangeRecord)) :
    List.lookup key ((key, record) :: rest) = some record := by
  simp [List.lookup]

theorem digitChar_facts :
    ∀ k < 10, ((Nat.digitChar k).toNat - 48 = k ∧ (Nat.digitChar k).isDigit = true)
      ∧ isStrWhiteSpace (Nat.digitChar k) = false
      ∧ Nat.digitChar k ≠ ';' ∧ Nat.digitChar k ≠ ':'
      ∧ Nat.digitChar k ≠ '+' ∧ Nat.digitChar k ≠ '-' := by
  decide

theorem toDigitsCore_spec (fuel : Nat) :
    ∀ n acc, n < fuel →
      ∃ ds, Nat.toDigitsCore 10 fuel n acc = ds ++ acc ∧ ds ≠ []
        ∧ (∀ c ∈ ds, ∃ k, k < 10 ∧ c = Nat.digitChar k) ∧ digitsValue ds = n := by
  induction fuel with
  | zero => intro n acc h; omega
  | succ fuel ih =>
    intro n acc hn
    simp only [Nat.toDigitsCore]
    by_cases h0 : n / 10 = 0
    · rw [if_pos h0]
      refine ⟨[Nat.digitChar (n % 10)], rfl, by simp, ?_, ?_⟩
      · intro c hc
        exact ⟨n % 10, Nat.mod_lt _ (by decide), by simpa using hc⟩
      · have hk := (digitChar_facts (n % 10) (Nat.mod_lt _ (by decide))).1.1
        simp only [digitsValue, List.foldl_cons, List.foldl_nil]
        omega
    · rw [if_neg h0]
      obtain ⟨ds, hds, _, hdig, hval⟩ := ih (n / 10) (Nat.digitChar (n % 10) :: acc) (by omega)
      refine ⟨ds ++ [Nat.digitChar (n % 10)], by simp [hds], by simp, ?_, ?_⟩
      · intro c hc
        rcases List.mem_append.1 hc with hc | hc
        · exact hdig c hc
        · exact ⟨n % 10, Nat.mod_lt _ (by decide), by simpa using hc⟩
      · have hk := (digitChar_facts (n % 10) (Nat.mod_lt _ (by decide))).1.1
        simp only [digitsValue] at hval ⊢
        rw [List.foldl_append, hval]
        simp only [List.foldl_cons, List.foldl_nil]
        omega

theorem toDigits_spec (n : Nat) :
    Nat.toDigits 10 n ≠ []
      ∧ (∀ c ∈ Nat.toDigits 10 n, ∃ k, k < 10 ∧ c = Nat.digitChar k)
      ∧ digitsValue (Nat.toDigits 10 n) = n := by
  obtain ⟨ds, hds, hne, hdig, hval⟩ := toDigitsCore_spec (n + 1) n [] (by omega)
  have : Nat.toDigits 10 n = ds := by simpa [Nat.toDigits] using hds
  rw [this]
  exact ⟨hne, hdig, hval⟩

theorem parseDigits_toDigits (n : Nat) : parseDigits (Nat.toDigits 10 n) = some n := by
  obtain ⟨hne, hdig, hval⟩ := toDigits_spec n
  have hall : (Nat.toDigits 10 n).all Char.isDigit = true := by
    rw [List.all_eq_true]
    intro c hc
    obtain ⟨k, hk, rfl⟩ := hdig c hc
    exact (digitChar_facts k hk).1.2
  simp [parseDigits, hne, hall, hval]

theorem dropWhile_of_all_false (p : Char → Bool) (l : List Char) (h : ∀ c ∈ l, p c = false) :
    l.dropWhile p = l := by
  cases l with
  | nil => rfl
  | cons c cs => simp [List.dropWhile, h c (List.mem_cons_self _ _)]

theorem trimWhiteSpace_of_clean (l : List Char) (h : ∀ c ∈ l, isStrWhiteSpace c = false) :
    trimWhiteSpace l = l := by
  unfold trimWhiteSpace
  rw [dropWhile_of_all_false _ l h, dropWhile_of_all_false _ l.reverse
    (fun c hc => h c (List.mem_reverse.1 hc))]
  simp

/-- The characters of the string of an integer: no white space, no separator. -/
theorem toJSString_int_clean (i : Int) :
    ∀ c ∈ (JSNumber.toJSString (JSNumber.int i)).toList,
      isStrWhiteSpace c = false ∧ c ≠ ';' ∧ c ≠ ':' := by
  intro c hc
  cases i with
  | ofNat n =>
    simp only [JSNumber.toJSString, String.toList] at hc
    obtain ⟨k, hk, rfl⟩ := (toDigits_spec n).2.1 c hc
    exact ⟨(digitChar_facts k hk).2.1, (digitChar_facts k hk).2.2.1, (digitChar_facts k hk).2.2.2.1⟩
  | negSucc n =>
    simp only [JSNumber.toJSString, String.toList, String.data_append] at hc
    rcases List.mem_append.1 hc with hc | hc
    · have : c = '-' := by simpa using hc
      subst this
      decide
    · obtain ⟨k, hk, rfl⟩ := (toDigits_spec (n + 1)).2.1 c hc
      exact ⟨(digitChar_facts k hk).2.1, (digitChar_facts k hk).2.2.1,
        (digitChar_facts k hk).2.2.2.1⟩

/-- Reading the string of an integer with `Number` gives the integer back. -/
theorem toNumber_toJSString_int (i : Int) :
    toNumber (JSNumber.toJSString (JSNumber.int i)) = JSNumber.int i := by
  have hclean := toJSString_int_clean i
  unfold toNumber
  rw [trimWhiteSpace_of_clean _ (fun c hc => (hclean c hc).1)]
  cases i with
  | ofNat n =>
    obtain ⟨hne, hdig, _⟩ := toDigits_spec n
    have hlist : (JSNumber.toJSString (JSNumber.int (Int.ofNat n))).toList = Nat.toDigits 10 n :=
      rfl
    rw [hlist]
    cases hds : Nat.toDigits 10 n with
    | nil => exact absurd hds hne
    | cons c cs =>
      have hc : ∃ k, k < 10 ∧ c = Nat.digitChar k := hdig c (by simp [hds])
      obtain ⟨k, hk, hck⟩ := hc
      have hplus : c ≠ '+' := hck ▸ (digitChar_facts k hk).2.2.2.2.1
      have hminus : c ≠ '-' := hck ▸ (digitChar_facts k hk).2.2.2.2.2
      have hp := parseDigits_toDigits n
      rw [hds] at hp
      split
      · rename_i heq; simp at heq
      · rename_i heq
        simp only [List.cons.injEq] at heq
        exact absurd heq.1 hplus
      · rename_i heq
        simp only [List.cons.injEq] at heq
        exact absurd heq.1 hminus
      · simp [unsignedToNumber, hp]
  | negSucc n =>
    have hlist : (JSNumber.toJSString (JSNumber.int (Int.negSucc n))).toList
        = '-' :: Nat.toDigits 10 (n + 1) := by
      simp [JSNumber.toJSString, String.toList, String.data_append]
    rw [hlist]
    simp only [unsignedToNumber, parseDigits_toDigits]
    simp [Int.negSucc_eq]

theorem splitChars_append (sep : Char) (piece rest : List Char) (h : ∀ c ∈ piece, c ≠ sep) :
    splitChars sep (piece ++ sep :: rest) = piece :: splitChars sep rest := by
  induction piece with
  | nil => simp [splitChars]
  | cons c cs ih =>
    have hc : c ≠ sep := h c (List.mem_cons_self _ _)
    have ih2 := ih (fun x hx => h x (List.mem_cons_of_mem _ hx))
    show splitChars sep (c :: (cs ++ sep :: rest)) = (c :: cs) :: splitChars sep rest
    simp only [splitChars, if_neg hc, ih2]

theorem splitChars_clean (sep : Char) (piece : List Char) (h : ∀ c ∈ piece, c ≠ sep) :
    splitChars sep piece = [piece] := by
  induction piece with
  | nil => simp [splitChars]
  | cons c cs ih =>
    have hc : c ≠ sep := h c (List.mem_cons_self _ _)
    have ih2 := ih (fun x hx => h x (List.mem_cons_of_mem _ hx))
    simp only [splitChars, if_neg hc, ih2]

/-- The text of a tuple before its closing `;`. -/
theorem tupleOf_toList (pair : Int × Int) :
    (tupleOf (changeOfPair pair)).toList
      = ((JSNumber.toJSString (JSNumber.int pair.1)).toList
          ++ ':' :: (JSNumber.toJSString (JSNumber.int pair.2)).toList) ++ [';'] := by
  simp [tupleOf, changeOfPair, String.toList, String.data_append]

theorem split_concatTuples (pairs : List (Int × Int)) :
    split (concatTuples (pairs.map changeOfPair)) ';'
      = pairs.map (fun pair =>
          String.mk ((JSNumber.toJSString (JSNumber.int pair.1)).toList
            ++ ':' :: (JSNumber.toJSString (JSNumber.int pair.2)).toList)) ++ [""] := by
  induction pairs with
  | nil => decide
  | cons pair rest ih =>
    have hclean : ∀ c ∈ (JSNumber.toJSString (JSNumber.int pair.1)).toList
        ++ ':' :: (JSNumber.toJSString (JSNumber.int pair.2)).toList, c ≠ ';' := by
      intro c hc
      rcases List.mem_append.1 hc with hc | hc
      · exact (toJSString_int_clean _ c hc).2.1
      · rcases List.mem_cons.1 hc with rfl | hc
        · decide
        · exact (toJSString_int_clean _ c hc).2.1
    simp only [split] at ih ⊢
    simp only [List.map_cons, concatTuples]
    have hlist : (tupleOf (changeOfPair pair) ++ concatTuples (rest.map changeOfPair)).toList
        = ((JSNumber.toJSString (JSNumber.int pair.1)).toList
            ++ ':' :: (JSNumber.toJSString (JSNumber.int pair.2)).toList)
          ++ ';' :: (concatTuples (rest.map changeOfPair)).toList := by
      have := tupleOf_toList pair
      simp only [String.toList, String.data_append] at this ⊢
      rw [this]
      simp
    rw [hlist, splitChars_append _ _ _ hclean, List.map_cons, ih]
    simp

theorem decodeTuple_tuple (pair : Int × Int) :
    decodeTuple (String.mk ((JSNumber.toJSString (JSNumber.int pair.1)).toList
        ++ ':' :: (JSNumber.toJSString (JSNumber.int pair.2)).toList)) = some pair := by
  have h1 : ∀ c ∈ (JSNumber.toJSString (JSNumber.int pair.1)).toList, c ≠ ':' :=
    fun c hc => (toJSString_int_clean _ c hc).2.2
  have h2 : ∀ c ∈ (JSNumber.toJSString (JSNumber.int pair.2)).toList, c ≠ ':' :=
    fun c hc => (toJSString_int_clean _ c hc).2.2
  have hsplit : split (String.mk ((JSNumber.toJSString (JSNumber.int pair.1)).toList
        ++ ':' :: (JSNumber.toJSString (JSNumber.int pair.2)).toList)) ':'
      = [JSNumber.toJSString (JSNumber.int pair.1),
          JSNumber.toJSString (JSNumber.int pair.2)] := by
    show List.map String.mk (splitChars ':' ((JSNumber.toJSString (JSNumber.int pair.1)).toList
        ++ ':' :: (JSNumber.toJSString (JSNumber.int pair.2)).toList)) = _
    rw [splitChars_append _ _ _ h1, splitChars_clean _ _ h2]
    rfl
  simp only [decodeTuple, hsplit, toNumber_toJSString_int]

theorem decodeTuples_tuples (pairs : List (Int × Int)) :
    decodeTuples (pairs.map (fun pair =>
        String.mk ((JSNumber.toJSString (JSNumber.int pair.1)).toList
          ++ ':' :: (JSNumber.toJSString (JSNumber.int pair.2)).toList))) = some pairs := by
  induction pairs with
  | nil => rfl
  | cons pair rest ih =>
    simp only [List.map_cons, decodeTuples, decodeTuple_tuple, ih]

theorem dropFinalEmpty_concat (pieces : List String) :
    dropFinalEmpty (pieces ++ [""]) = pieces := by
  simp [dropFinalEmpty]

theorem toNumber_toJSString (x : JSNumber) : toNumber x.toJSString = x := by
  cases x with
  | int i => exact toNumber_toJSString_int i
  | nan => decide

theorem toJSString_no_semicolon (x : JSNumber) : ∀ c ∈ x.toJSString.toList, c ≠ ';' := by
  cases x with
  | int i => exact fun c hc => (toJSString_int_clean i c hc).2.1
  | nan => decide

theorem intercalate_go_toList (sep : String) (pieces : List String) (acc : String) :
    (String.intercalate.go acc sep pieces).toList
      = acc.toList ++ (pieces.map (fun piece => sep.toList ++ piece.toList)).flatten := by
  induction pieces generalizing acc with
  | nil => simp [String.intercalate.go]
  | cons piece rest ih =>
    simp only [String.intercalate.go]
    rw [ih]
    simp [String.toList, String.data_append]

theorem splitChars_pieces (sep : Char) (pieces : List (List Char)) (first : List Char)
    (hfirst : ∀ c ∈ first, c ≠ sep) (hpieces : ∀ piece ∈ pieces, ∀ c ∈ piece, c ≠ sep) :
    splitChars sep (first ++ (pieces.map (fun piece => [sep] ++ piece)).flatten)
      = first :: pieces := by
  induction pieces generalizing first with
  | nil => simpa using splitChars_clean sep first hfirst
  | cons piece rest ih =>
    have h := ih piece (hpieces piece (List.mem_cons_self _ _))
      (fun q hq => hpieces q (List.mem_cons_of_mem _ hq))
    simp only [List.map_cons, List.flatten_cons, List.singleton_append, List.cons_append,
      List.nil_append] at h ⊢
    rw [splitChars_append sep first _ hfirst, h]

/-- Splitting the joined registry string on `;` and converting every piece gives
the joined ids back, provided there is at least one id. -/
theorem split_join_round_trip (x : JSNumber) (xs : List JSNumber) :
    (split (join (x :: xs) ";") ';').map toNumber = x :: xs := by
  have hlist : (join (x :: xs) ";").toList
      = x.toJSString.toList
        ++ ((xs.map (fun y => y.toJSString.toList)).map (fun piece => [';'] ++ piece)).flatten := by
    simp only [join, List.map_cons, String.intercalate]
    rw [intercalate_go_toList]
    simp [List.map_map, Function.comp_def, String.toList]
  simp only [split]
  rw [hlist, splitChars_pieces ';' _ _ (toJSString_no_semicolon x)]
  · simp only [List.map_cons, List.map_map, Function.comp_def]
    have hmk : ∀ y : JSNumber, toNumber (String.mk y.toJSString.data) = y :=
      fun y => toNumber_toJSString y
    simp [String.toList, hmk]
  · intro piece hpiece
    obtain ⟨y, _, rfl⟩ := List.mem_map.1 hpiece
    exact toJSString_no_semicolon y

/-- When the feed is fetched and normalised and the registry holds a string,
`checkChanges` runs `reconcile` on the sorted stations and the parsed ids. -/
theorem checkChanges_eq_reconcile (w : World) (db : Database) (timestamp : Nat)
    (raw : List RawPlace) (L : List Station) (ids : String) (hfeed : w.feed = some raw)
    (hclean : cleanPlaces raw = some L) (hknown : db.knownStations = some ids) :
    checkChanges w db timestamp
      = reconcile (sortPlaces L) ((split ids ';').map toNumber) w db timestamp := by
  simp [checkChanges, loadPlaces, loadSavedPlaces, hfeed, hclean, hknown]

/-- A pass whose feed cannot be fetched or normalised, or whose registry holds no
value, answers `success: false` and leaves the database as it was. -/
theorem checkChanges_aborts (w : World) (db : Database) (timestamp : Nat)
    (h : loadPlaces w.feed = none ∨ db.knownStations = none) :
    checkChanges w db timestamp = aborted db := by
  rcases h with h | h
  · simp [checkChanges, h]
  · cases hp : loadPlaces w.feed <;> simp [checkChanges, hp, loadSavedPlaces, h]

/-! ## Properties of the program -/

/-- C1: the missing list computed by `checkChanges` from live stations `L` and
known ids `K` is the subsequence of `K`, in the order of `K`, of the ids that no
station of `L` has; with no live station it is all of `K`. -/
theorem missing_is_known_without_live (L : List Station) (K : List Int) (w : World)
    (db : Database) (timestamp : Nat) :
    (reconcile L (K.map JSNumber.int) w db timestamp).missingPlaces
        = (K.filter (fun k => decide (∀ p ∈ L, p.id ≠ JSNumber.int k))).map JSNumber.int
      ∧ (reconcile [] (K.map JSNumber.int) w db timestamp).missingPlaces
        = K.map JSNumber.int := by
  constructor
  · simp only [reconcile, findMissing]
    rw [findMissing_fold]
    simp
  · simp only [reconcile, findMissing]
    rw [findMissing_fold]
    simp

/-- C2: whatever the outcomes of the station writes, the stations for which
`checkChanges` attempts a write are the stations of `L` whose id is not in `K`,
in the order of `L`; a failed write does not stop the later attempts. -/
theorem write_attempted_for_every_new_station (L : List Station) (K : List Int) (w : World)
    (db : Database) (timestamp : Nat) :
    (reconcile L (K.map JSNumber.int) w db timestamp).attempted
      = L.filter (fun p => decide (p.id ∉ K.map JSNumber.int)) := by
  simp only [reconcile]
  rw [registerNew_attempted]
  rfl

/-- C3: `formatChanges` returns the concatenation, in input order, of the tuples
`<id>:<bikes>;` of the elements, nothing sorted and nothing dropped; the empty
list gives the empty string and the ids 1, 2 with 5, 0 bikes give `1:5;2:0;`. -/
theorem formatChanges_is_concatenation (places : List Change) :
    formatChanges places = concatTuples places
      ∧ formatChanges [] = ""
      ∧ formatChanges [{ id := JSNumber.int 1, bikes := JSNumber.int 5 },
            { id := JSNumber.int 2, bikes := JSNumber.int 0 }] = "1:5;2:0;" :=
  ⟨formatChanges_eq places, by decide, by decide⟩

/-- C5: the registry is written once when at least one station write succeeded,
with `K` unchanged followed by the ids of the new stations whose write
succeeded, in live order, joined with `;`; it is not written when no write
succeeded.  The written sequence starts with all of `K`, and the written string,
split on `;` and converted piece by piece, reads back as that sequence. -/
theorem registry_write_appends_succeeded (L : List Station) (K : List Int) (w : World)
    (db : Database) (timestamp : Nat) :
    (reconcile L (K.map JSNumber.int) w db timestamp).newPlaces
        = succeededIds w.stationWriteOk (L.filter (fun p => decide (p.id ∉ K.map JSNumber.int)))
      ∧ (reconcile L (K.map JSNumber.int) w db timestamp).knownWrites
        = (if succeededIds w.stationWriteOk
                (L.filter (fun p => decide (p.id ∉ K.map JSNumber.int))) = [] then []
          else [join (K.map JSNumber.int ++ succeededIds w.stationWriteOk
                (L.filter (fun p => decide (p.id ∉ K.map JSNumber.int)))) ";"])
      ∧ (reconcile L (K.map JSNumber.int) w db timestamp).db.knownStations
        = (if succeededIds w.stationWriteOk
                (L.filter (fun p => decide (p.id ∉ K.map JSNumber.int))) ≠ []
              ∧ w.knownWriteOk = true then
            some (join (K.map JSNumber.int ++ succeededIds w.stationWriteOk
                (L.filter (fun p => decide (p.id ∉ K.map JSNumber.int)))) ";")
          else db.knownStations)
      ∧ (succeededIds w.stationWriteOk
              (L.filter (fun p => decide (p.id ∉ K.map JSNumber.int))) = []
          ∨ (split (join (K.map JSNumber.int ++ succeededIds w.stationWriteOk
                (L.filter (fun p => decide (p.id ∉ K.map JSNumber.int)))) ";") ';').map toNumber
            = K.map JSNumber.int ++ succeededIds w.stationWriteOk
                (L.filter (fun p => decide (p.id ∉ K.map JSNumber.int)))) := by
  have hnew : (reconcile L (K.map JSNumber.int) w db timestamp).newPlaces
      = succeededIds w.stationWriteOk (L.filter (fun p => decide (p.id ∉ K.map JSNumber.int))) :=
    registerNew_newPlaces K timestamp w.stationWriteOk L db.stations
  refine ⟨hnew, ?_, ?_, ?_⟩
  · rw [reconcile_knownWrites, hnew]
  · rw [reconcile_knownStations, hnew]
  · by_cases h : succeededIds w.stationWriteOk
        (L.filter (fun p => decide (p.id ∉ K.map JSNumber.int))) = []
    · exact Or.inl h
    · right
      cases hall : K.map JSNumber.int ++ succeededIds w.stationWriteOk
          (L.filter (fun p => decide (p.id ∉ K.map JSNumber.int))) with
      | nil => exact absurd (List.append_eq_nil.1 hall).2 h
      | cons x xs => exact split_join_round_trip x xs

/-- C6: with the registry holding the empty string, which is what joining no id
gives, `checkChanges` reads the known ids as `[0]`: over the single live station
5 it reports id 0 missing and writes `0;5` back, and over a live station 0 it
attempts no write at all. -/
theorem empty_registry_reads_as_id_zero :
    join [] ";" = ""
      ∧ loadSavedPlaces (databaseWith (some "")) = some [JSNumber.int 0]
      ∧ (checkChanges (allWritesOk (some [rawPlaceWith "BikePoints_5" "2"]))
          (databaseWith (some "")) 1).missingPlaces = [JSNumber.int 0]
      ∧ (checkChanges (allWritesOk (some [rawPlaceWith "BikePoints_5" "2"]))
          (databaseWith (some "")) 1).attempted = [stationWith 5 2]
      ∧ (checkChanges (allWritesOk (some [rawPlaceWith "BikePoints_5" "2"]))
          (databaseWith (some "")) 1).db.knownStations = some "0;5"
      ∧ (checkChanges (allWritesOk (some [rawPlaceWith "BikePoints_0" "2"]))
          (databaseWith (some "")) 1).attempted = [] := by
  decide

/-- C7 as stated fails: for the pass at timestamp 1700000000 over the single
live station 5 with 2 bikes (already known), the change string is `5:2;` while
the value stored under the timestamp, and returned by the lookup endpoint, is
`1700000000-5:2;`. -/
theorem change_record_is_not_the_bare_change_string :
    (checkChanges (allWritesOk (some [rawPlaceWith "BikePoints_5" "2"]))
        (databaseWith (some "5")) 1700000000).changes = "5:2;"
      ∧ (checkChanges (allWritesOk (some [rawPlaceWith "BikePoints_5" "2"]))
          (databaseWith (some "5")) 1700000000).changeWrites
        = [("1700000000", { data := "1700000000-5:2;" })]
      ∧ (checkChanges (allWritesOk (some [rawPlaceWith "BikePoints_5" "2"]))
          (databaseWith (some "5")) 1700000000).db.changes.lookup "1700000000"
        ≠ some { data := "5:2;" }
      ∧ getChange
          (checkChanges (allWritesOk (some [rawPlaceWith "BikePoints_5" "2"]))
            (databaseWith (some "5")) 1700000000).db
          { fetch := some "1", id := "1700000000" }
        = { status := 200, body := "1700000000-5:2;" } := by
  decide

/-- C7 amended: the value written under the key `t` is the record whose `data`
is the decimal timestamp, a `-`, and then the change string
`formatChanges(getChanges(L))`, itself the concatenation of one `id:bikes;`
tuple per live station; when the write succeeds, an approved lookup of `t`
answers with that `data`. -/
theorem change_record_is_stamped_change_string (L : List Station) (K : List JSNumber)
    (w : World) (db : Database) (timestamp : Nat) (hw : w.changesWriteOk = true) :
    (reconcile L K w db timestamp).changeWrites
        = [(String.mk (Nat.toDigits 10 timestamp),
            { data := String.mk (Nat.toDigits 10 timestamp) ++ "-"
                ++ formatChanges (getChanges L) })]
      ∧ formatChanges (getChanges L) = concatTuples (getChanges L)
      ∧ (getChanges L).length = L.length
      ∧ (reconcile L K w db timestamp).db.changes.lookup (String.mk (Nat.toDigits 10 timestamp))
        = some { data := String.mk (Nat.toDigits 10 timestamp) ++ "-"
                ++ formatChanges (getChanges L) }
      ∧ getChange (reconcile L K w db timestamp).db
          { fetch := some "1", id := String.mk (Nat.toDigits 10 timestamp) }
        = { status := 200
            body := String.mk (Nat.toDigits 10 timestamp) ++ "-"
              ++ formatChanges (getChanges L) } := by
  have hdb : (reconcile L K w db timestamp).db.changes
      = (String.mk (Nat.toDigits 10 timestamp),
          ({ data := String.mk (Nat.toDigits 10 timestamp) ++ "-"
                ++ formatChanges (getChanges L) } : ChangeRecord)) :: db.changes := by
    simp [reconcile, hw]
  refine ⟨rfl, formatChanges_eq _, by simp [getChanges], ?_, ?_⟩
  · rw [hdb, lookup_head]
  · simp only [getChange, isAccessApproved]
    rw [hdb, lookup_head]
    simp

/-- The pass at timestamp 17 over the single live station 5, every write succeeding. -/
theorem change_record_is_stamped_change_string_witness :
    (allWritesOk none).changesWriteOk = true
      ∧ getChange
          (reconcile [stationWith 5 2] [] (allWritesOk none) (databaseWith none) 17).db
          { fetch := some "1", id := String.mk (Nat.toDigits 10 17) }
        = { status := 200
            body := String.mk (Nat.toDigits 10 17) ++ "-"
              ++ formatChanges (getChanges [stationWith 5 2]) } :=
  ⟨rfl,
    (change_record_is_stamped_change_string [stationWith 5 2] [] (allWritesOk none)
      (databaseWith none) 17 rfl).2.2.2.2⟩

/-- C9: for every list of integer pairs, splitting `formatChanges` of the list on
`;`, discarding the empty piece after the final `;`, splitting each piece on `:`
and reading both parts as integers gives the original pairs in the original
order. -/
theorem decode_formatChanges_round_trip (pairs : List (Int × Int)) :
    decodeChanges (formatChanges (pairs.map changeOfPair)) = some pairs := by
  rw [formatChanges_eq, decodeChanges, split_concatTuples, dropFinalEmpty_concat,
    decodeTuples_tuples]

/-- C10: when `K` has no duplicate and the live stations have pairwise distinct
ids, the sequence of `K` followed by the newly registered ids, which the pass
writes back to the registry, has no duplicate, whatever the write outcomes. -/
theorem registry_keeps_no_duplicates (L : List Station) (K : List Int) (w : World)
    (db : Database) (timestamp : Nat) (hK : K.Nodup) (hL : (L.map Station.id).Nodup) :
    (K.map JSNumber.int
      ++ (reconcile L (K.map JSNumber.int) w db timestamp).newPlaces).Nodup := by
  have hnew : (reconcile L (K.map JSNumber.int) w db timestamp).newPlaces
      = succeededIds w.stationWriteOk (L.filter (isNewFor (K.map JSNumber.int))) :=
    registerNew_newPlaces K timestamp w.stationWriteOk L db.stations
  rw [hnew]
  have hsub := succeededIds_sublist w.stationWriteOk (L.filter (isNewFor (K.map JSNumber.int)))
  have hfl : ((L.filter (isNewFor (K.map JSNumber.int))).map Station.id).Sublist
      (L.map Station.id) := (List.filter_sublist L).map Station.id
  have hKn : (K.map JSNumber.int).Nodup := by
    apply List.Nodup.map _ hK
    intro a b hab
    exact JSNumber.int.inj hab
  rw [List.nodup_append]
  refine ⟨hKn, (hL.sublist hfl).sublist hsub, ?_⟩
  intro x hxK hxN
  have hx := hsub.subset hxN
  obtain ⟨p, hp, rfl⟩ := List.mem_map.1 hx
  have hpnew := (List.mem_filter.1 hp).2
  simp only [isNewFor, decide_eq_true_eq] at hpnew
  exact hpnew hxK

/-- Known ids 100 and 200 with live stations 200 and 300. -/
theorem registry_keeps_no_duplicates_witness :
    [(100 : Int), 200].Nodup
      ∧ ([stationWith 200 3, stationWith 300 7].map Station.id).Nodup
      ∧ ([(100 : Int), 200].map JSNumber.int
          ++ (reconcile [stationWith 200 3, stationWith 300 7]
                ([(100 : Int), 200].map JSNumber.int) (allWritesOk none) (databaseWith none)
                1).newPlaces).Nodup :=
  ⟨by decide, by decide,
    registry_keeps_no_duplicates [stationWith 200 3, stationWith 300 7] [100, 200]
      (allWritesOk none) (databaseWith none) 1 (by decide) (by decide)⟩

end SantanderCycles
